import Mathlib

/-
 Verification of the rust-installer package-format interpreter
 (src/dist/component/package.rs): the version guard, manifest decoding,
 directory-package install orchestration, permission normalization,
 archive extraction with first-path-component stripping, and the
 Windows deferred-handle drain.

 Paths are modelled as lists of components.  File contents, the
 transaction builder, and other external collaborators are modelled by
 explicit environments of outcomes, so every definition is executable.
-/

set_option autoImplicit false

/-- A filesystem path, as its list of components (Rust `PathBuf`). -/
abbrev RPath := List String

/-- Rust `Path::parent`: `None` for an empty path, otherwise the path with
its last component removed. -/
def pathParent : RPath → Option RPath
  | [] => none
  | ps => some ps.dropLast

/-- Whether `pre` is a leading run of components of `p`
(Rust `Path::starts_with`, used to model which walked entries lie under a
directory). -/
def pathStartsWith : RPath → RPath → Bool
  | _, [] => true
  | [], _ :: _ => false
  | x :: xs, y :: ys => x == y && pathStartsWith xs ys

/-- ASCII whitespace, as Rust `char::is_whitespace` behaves on the ASCII
inputs relevant here. -/
def isWS (c : Char) : Bool :=
  c == ' ' || c == '\t' || c == '\n' || c == '\r'

/-- Rust `str::trim`: remove leading and trailing whitespace. -/
def rustTrim (s : String) : String :=
  String.mk (((s.toList.dropWhile isWS).reverse.dropWhile isWS).reverse)

/-- Split a character list at every occurrence of `c`. -/
def splitOnChar (c : Char) : List Char → List (List Char)
  | [] => [[]]
  | x :: xs =>
    let r := splitOnChar c xs
    if x = c then [] :: r
    else
      match r with
      | y :: ys => (x :: y) :: ys
      | [] => [[x]]

/-- Split a character list at the first occurrence of `c`; `none` when `c`
does not occur. -/
def splitFirstChar (c : Char) : List Char → Option (List Char × List Char)
  | [] => none
  | x :: xs =>
    if x = c then some ([], xs)
    else (splitFirstChar c xs).map (fun p => (x :: p.1, p.2))

/-- Rust `str::lines`: split on newline, dropping one trailing empty line
and any trailing carriage returns. -/
def rustLines (s : String) : List String :=
  let ls := splitOnChar '\n' s.toList
  let ls := if ls.getLast? = some [] then ls.dropLast else ls
  ls.map (fun l => String.mk (if l.getLast? = some '\r' then l.dropLast else l))

/-- Interpret a relative-path string as path components (how `PathBuf::from`
then `Path::join` treats `"bin/rustc"`). -/
def pathComponentsOf (s : String) : RPath :=
  (splitOnChar '/' s.toList).map String.mk

/-- The current metadata revision used by rust-installer
(`INSTALLER_VERSION` in package.rs). -/
def INSTALLER_VERSION : String := "3"

/-- Name of the version-marker file (`VERSION_FILE` in package.rs). -/
def VERSION_FILE : String := "rust-installer-version"

/-- The error kinds of `crate::errors::ErrorKind` reachable from
package.rs, plus the read-failure kind produced by `utils::read_file`. -/
inductive ErrorKind where
  | ReadingFile (name : String)
  | BadInstallerVersion (found : String)
  | CorruptComponent (name : String)
  | ExtractingPackage
  | ComponentDirPermissionsFailed
  | ComponentFilePermissionsFailed
deriving DecidableEq, Repr

/-- Modelled from the spec: `utils::read_file` (crate::utils::utils, not
under src/) returns the file's content, and "any I/O failure reading the
file is a distinct read-failed error" carrying the caller-supplied name.
The readable content (or its absence) is passed in explicitly. -/
def read_file (name : String) (content : Option String) : Except ErrorKind String :=
  match content with
  | some s => Except.ok s
  | none => Except.error (ErrorKind.ReadingFile name)

/-- `validate_installer_version` (package.rs): read
`path/rust-installer-version` through `read_file`, trim, and compare with
`INSTALLER_VERSION`; a mismatch is `BadInstallerVersion` carrying the
 trimmed string.  `fs` gives the readable content at each path. -/
def validate_installer_version (fs : RPath → Option String) (path : RPath) :
    Except ErrorKind Unit :=
  match read_file "installer version" (fs (path ++ [VERSION_FILE])) with
  | Except.error e => Except.error e
  | Except.ok file =>
    let v := rustTrim file
    if v = INSTALLER_VERSION then Except.ok ()
    else Except.error (ErrorKind.BadInstallerVersion v)

/-- Modelled from the spec: `ComponentPart::decode`
(crate::dist::component::components, not under src/): "a line is
whitespace-delimited into an operation keyword and a path remainder;
recognized keywords are exactly `file` and `dir`; any other keyword, or a
line missing the path remainder, is malformed" (`None`). -/
def ComponentPart.decode (line : String) : Option (String × String) :=
  match splitFirstChar ' ' line.toList with
  | none => none
  | some (k, rest) =>
    let kind := String.mk k
    if kind = "file" || kind = "dir" then some (kind, String.mk rest)
    else none

/-- A call issued to the external transaction builder
(`ChangedFiles`-backed builder in the transaction collaborator): the
relative destination path and the absolute source path, in the four
variants `install` can issue. -/
inductive BuilderOp where
  | copy_file (relpath : String) (src : RPath)
  | move_file (relpath : String) (src : RPath)
  | copy_dir (relpath : String) (src : RPath)
  | move_dir (relpath : String) (src : RPath)
deriving DecidableEq, Repr

/-- The source path argument of a builder call. -/
def BuilderOp.src : BuilderOp → RPath
  | copy_file _ s => s
  | move_file _ s => s
  | copy_dir _ s => s
  | move_dir _ s => s

/-- The relative destination path argument of a builder call. -/
def BuilderOp.relpath : BuilderOp → String
  | copy_file p _ => p
  | move_file p _ => p
  | copy_dir p _ => p
  | move_dir p _ => p

/-- Whether the call is a copy variant (versus a move variant). -/
def BuilderOp.isCopy : BuilderOp → Bool
  | copy_file _ _ => true
  | copy_dir _ _ => true
  | move_file _ _ => false
  | move_dir _ _ => false

/-- Observable steps of `DirectoryPackage::install`, in order: the
manifest read, the builder opening (`target.add`), each builder call,
each `set_file_perms` pass (destination, source), and `finish()`. -/
inductive InstallEvent where
  | manifestRead (p : RPath)
  | builderOpen (name : String)
  | builderCall (op : BuilderOp)
  | permsPass (dest : RPath) (src : RPath)
  | finish
deriving DecidableEq, Repr

/-- An error surfaced by `install`: either one of this crate's error
kinds, or an opaque error propagated unchanged from the external
transaction builder. -/
inductive InstallError where
  | kind (k : ErrorKind)
  | builder (e : String)
deriving DecidableEq, Repr

/-- Outcomes of the external collaborators `install` touches: readable
file contents, the install destination root (`target.prefix().path()`),
the result of each builder call and of `finish()`, and the result of each
`set_file_perms` pass (which depends on the live filesystem). -/
structure InstallEnv where
  fs : RPath → Option String
  destRoot : RPath
  builderRes : BuilderOp → Option String
  permsRes : RPath → RPath → Option ErrorKind
  finishRes : Except String Nat

/-- `DirectoryPackage` (package.rs): a package root path, its declared
component set, and the copy-versus-move flag. -/
structure DirectoryPackage where
  path : RPath
  components : List String
  copy : Bool

/-- The component-directory resolution of `DirectoryPackage::install`
(package.rs lines 84-90): the literal name when the component set
contains it; otherwise the short name whenever one is present; otherwise
the literal name. -/
def actualName (components : List String) (name : String) (short_name : Option String) : String :=
  if components.contains name then name
  else
    match short_name with
    | some n => n
    | none => name

/-- The builder call one manifest line gives rise to (package.rs lines
98-120): decode the line, pick the copy-or-move variant per the copy
flag with source path `root/relative_path`; `none` when the line fails
to decode or its keyword is neither `file` nor `dir` (both are the
`CorruptComponent` cases of the loop). -/
def lineOp (pkg : DirectoryPackage) (root : RPath) (l : String) : Option BuilderOp :=
  match ComponentPart.decode l with
  | none => none
  | some part =>
    if part.1 = "file" then
      some (if pkg.copy then BuilderOp.copy_file part.2 (root ++ pathComponentsOf part.2)
            else BuilderOp.move_file part.2 (root ++ pathComponentsOf part.2))
    else if part.1 = "dir" then
      some (if pkg.copy then BuilderOp.copy_dir part.2 (root ++ pathComponentsOf part.2)
            else BuilderOp.move_dir part.2 (root ++ pathComponentsOf part.2))
    else none

/-- The per-line loop of `DirectoryPackage::install` (package.rs lines
97-123): decode each manifest line (an undecodable or unrecognized line
is `CorruptComponent` carrying the component name), issue the builder
call, then run `set_file_perms` on the installed destination; the first
failure stops the loop.  Returns the events performed and the error, if
any. -/
def installLines (pkg : DirectoryPackage) (env : InstallEnv) (name : String) (root : RPath) :
    List String → List InstallEvent × Option InstallError
  | [] => ([], none)
  | l :: ls =>
    match lineOp pkg root l with
    | none => ([], some (InstallError.kind (ErrorKind.CorruptComponent name)))
    | some op =>
      match env.builderRes op with
      | some e => ([InstallEvent.builderCall op], some (InstallError.builder e))
      | none =>
        let dest := env.destRoot ++ pathComponentsOf op.relpath
        match env.permsRes dest op.src with
        | some k =>
          ([InstallEvent.builderCall op, InstallEvent.permsPass dest op.src],
           some (InstallError.kind k))
        | none =>
          let r := installLines pkg env name root ls
          (InstallEvent.builderCall op :: InstallEvent.permsPass dest op.src :: r.1, r.2)

/-- `DirectoryPackage::install` (package.rs lines 77-128): resolve the
actual component directory, read its `manifest.in` (propagating the read
error unchanged), open the builder for the literal component name, run
the per-line loop, and on success `finish()` the builder, returning the
updated transaction handle. -/
def install (pkg : DirectoryPackage) (env : InstallEnv) (name : String)
    (short_name : Option String) : List InstallEvent × Except InstallError Nat :=
  let actual_name := actualName pkg.components name short_name
  let root := pkg.path ++ [actual_name]
  let manifestPath := root ++ ["manifest.in"]
  match read_file "package manifest" (env.fs manifestPath) with
  | Except.error e => ([InstallEvent.manifestRead manifestPath], Except.error (InstallError.kind e))
  | Except.ok manifest =>
    let evs0 := [InstallEvent.manifestRead manifestPath, InstallEvent.builderOpen name]
    let r := installLines pkg env name root (rustLines manifest)
    match r.2 with
    | some e => (evs0 ++ r.1, Except.error e)
    | none =>
      match env.finishRes with
      | Except.error e => (evs0 ++ r.1 ++ [InstallEvent.finish], Except.error (InstallError.builder e))
      | Except.ok tx => (evs0 ++ r.1 ++ [InstallEvent.finish], Except.ok tx)

/-- The builder calls recorded in an event trace, in order. -/
def builderCalls (evs : List InstallEvent) : List BuilderOp :=
  evs.filterMap (fun e =>
    match e with
    | InstallEvent.builderCall op => some op
    | _ => none)

deriving instance DecidableEq for Except

/-- POSIX metadata of one filesystem entry: whether it is a directory,
and its permission bits. -/
structure Metadata where
  isDir : Bool
  mode : Nat
deriving DecidableEq, Repr

/-- A finite filesystem: entries (path, metadata) in walk order. -/
abbrev FileSystem := List (RPath × Metadata)

/-- `fs::metadata` / `utils::is_directory` lookups against the model
filesystem: the first entry at the path, if any. -/
def fsLookup (fs : FileSystem) (p : RPath) : Option Metadata :=
  (fs.find? (fun e => e.1 = p)).map (fun e => e.2)

/-- `needs_x` (package.rs lines 146-149): directories need the execute
bit, as does anything whose mode is user-rwx (`mode & 0o700 == 0o700`). -/
def needs_x (m : Metadata) : Bool :=
  m.isDir || (m.mode &&& 0o700 == 0o700)

/-- The `is_bin` convention of `set_file_perms` (package.rs lines
152-156): the source path's parent ends with a component named `bin`. -/
def srcParentIsBin (src_path : RPath) : Bool :=
  match pathParent src_path with
  | some p => p.getLast? == some "bin"
  | none => false

/-- `set_file_perms` (package.rs lines 140-187), on the model filesystem
`fs`, which holds the DESTINATION tree's metadata as the code observes it
(WalkDir entry metadata / `fs::metadata(dest_path)`).  `is_bin` consults
only the textual source path.  When the destination is a directory, every
entry under it (itself included) is chmod-ed per `needs_x` of its own
metadata; a single file is chmod-ed per `is_bin || needs_x`; a missing
single file is a `ComponentFilePermissionsFailed` error. -/
def set_file_perms (fs : FileSystem) (dest_path src_path : RPath) :
    Except ErrorKind FileSystem :=
  let is_bin := srcParentIsBin src_path
  let is_dir :=
    match fsLookup fs dest_path with
    | some m => m.isDir
    | none => false
  if is_dir then
    Except.ok (fs.map (fun e =>
      (e.1, if pathStartsWith e.1 dest_path then
              { e.2 with mode := if needs_x e.2 then 0o755 else 0o644 }
            else e.2)))
  else
    match fsLookup fs dest_path with
    | none => Except.error ErrorKind.ComponentFilePermissionsFailed
    | some m =>
      Except.ok (fs.map (fun e =>
        (e.1, if e.1 = dest_path then
                { e.2 with mode := if is_bin || needs_x m then 0o755 else 0o644 }
              else e.2)))

/-- The single-file permission rule as the specification states it: the
target mode is decided from the SOURCE file's metadata — `0o755` when the
source parent path ends in a segment named `bin` or the source metadata
has full user rwx, else `0o644`. -/
def claimFileMode (srcMeta : Metadata) (src_path : RPath) : Nat :=
  if srcParentIsBin src_path || (srcMeta.mode &&& 0o700 == 0o700) then 0o755 else 0o644

/-- The component-directory resolution as the claim states it: the short
name is used only when it is itself an element of the component set;
otherwise the literal component name. -/
def actualNameClaim (components : List String) (name : String) (short_name : Option String) : String :=
  if components.contains name then name
  else
    match short_name with
    | some n => if components.contains n then n else name
    | none => name

/-- One tar entry as the extraction loop observes it: the result of
`entry.path()` (`none` models a path-decode failure) and whether
`entry.unpack` succeeds. -/
structure TarEntry where
  pathResult : Option RPath
  unpackOk : Bool
deriving DecidableEq, Repr

/-- One item yielded by the archive's entry stream: a readable entry, or
a stream read failure. -/
inductive StreamItem where
  | ok (e : TarEntry)
  | err
deriving DecidableEq, Repr

/-- Outcomes of the filesystem operations extraction performs: whether a
parent directory already exists, and whether `create_dir_all` on it
succeeds. -/
structure UnpackEnv where
  parentExists : RPath → Bool
  createDirOk : RPath → Bool

/-- The lazy parent-directory step of `unpack_without_first_dir`
(package.rs lines 346-360): a parent not yet in `checked_parents` is
inserted, then created when it does not exist; a creation failure is
`ExtractingPackage`. -/
def checkParent (env : UnpackEnv) (checked : List RPath) (full_path : RPath) :
    Except ErrorKind (List RPath) :=
  match pathParent full_path with
  | none => Except.ok checked
  | some par =>
    if checked.contains par then Except.ok checked
    else
      let checked' := par :: checked
      if env.parentExists par then Except.ok checked'
      else if env.createDirOk par then Except.ok checked'
      else Except.error ErrorKind.ExtractingPackage

/-- The entry loop of `unpack_without_first_dir` (package.rs lines
333-366): each entry's recorded path loses its first component, the
remainder is joined onto the destination, parents are lazily created, and
the entry is unpacked there; every failure is `ExtractingPackage`.
Returns the unpacked destination paths in order. -/
def unpackLoop (env : UnpackEnv) (dest : RPath) :
    List StreamItem → List RPath → List RPath → Except ErrorKind (List RPath)
  | [], _, acc => Except.ok acc.reverse
  | StreamItem.err :: _, _, _ => Except.error ErrorKind.ExtractingPackage
  | StreamItem.ok e :: rest, checked, acc =>
    match e.pathResult with
    | none => Except.error ErrorKind.ExtractingPackage
    | some relpath =>
      let full_path := dest ++ relpath.tail
      match checkParent env checked full_path with
      | Except.error k => Except.error k
      | Except.ok checked' =>
        if e.unpackOk then unpackLoop env dest rest checked' (full_path :: acc)
        else Except.error ErrorKind.ExtractingPackage

/-- `unpack_without_first_dir` (package.rs lines 322-369): a failure of
`archive.entries()` itself (modelled by `entries = Except.error ()`) is
`ExtractingPackage`; otherwise run the entry loop with an empty
`checked_parents` set. -/
def unpack_without_first_dir (env : UnpackEnv) (dest : RPath)
    (entries : Except Unit (List StreamItem)) : Except ErrorKind (List RPath) :=
  match entries with
  | Except.error _ => Except.error ErrorKind.ExtractingPackage
  | Except.ok items => unpackLoop env dest items [] []

/-- The destinations the extraction loop writes, per stream item: the
destination root joined with the entry's recorded path minus its first
component. -/
def strippedDests (dest : RPath) (items : List StreamItem) : List RPath :=
  items.filterMap (fun i =>
    match i with
    | StreamItem.ok e => e.pathResult.map (fun rel => dest ++ rel.tail)
    | StreamItem.err => none)

/-- Observable steps of the Windows `Unpacker`'s `Drop` (the deferred
handle drain), package.rs lines 259-307. -/
inductive DrainEvent where
  | downloadFinished
  | pushUnits (u : String)
  | contentLength (n : Nat)
  | printClosing (n : Nat)
  | dataReceived (n : Nat)
  | poolJoin
  | popUnits
deriving DecidableEq, Repr

/-- Result of running the drain: a normal return with its event trace,
a model cutoff when the supplied counter observations run out before a
zero is read (the loop would still be polling), or an assertion failure. -/
inductive DrainResult where
  | done (evs : List DrainEvent)
  | stuck
  | panicked
deriving DecidableEq, Repr

/-- The polling loop of the drain (package.rs lines 290-300): while the
last counter load is nonzero, load again and report the delta closed
since the previous load; returns the per-poll events and the final
counter load. -/
def drainPoll : List Nat → Nat → Option (List DrainEvent × Nat)
  | _, 0 => some ([], 0)
  | [], _ => none
  | r :: rest, current =>
    (drainPoll rest r).map (fun p => (DrainEvent.dataReceived (current - r) :: p.1, p.2))

/-- `impl Drop for Unpacker` (package.rs lines 259-307): reset and push
notifications, report the initial in-flight count, print above 50 files,
assert the count is below `32767`, poll the counter to zero, join the
worker pool, and pop notifications.  `initial` is the first load of
`n_files`; `reads` are the subsequent loads. -/
def unpackerDrop (initial : Nat) (reads : List Nat) : DrainResult :=
  let pre := [DrainEvent.downloadFinished, DrainEvent.pushUnits "handles",
              DrainEvent.contentLength initial]
  let pre := if initial > 50 then pre ++ [DrainEvent.printClosing initial] else pre
  if 32767 > initial then
    match drainPoll reads initial with
    | none => DrainResult.stuck
    | some p =>
      DrainResult.done (pre ++ p.1 ++
        [DrainEvent.poolJoin, DrainEvent.downloadFinished, DrainEvent.popUnits])
  else DrainResult.panicked

/-- A package root whose version-marker file holds `content` and which
holds nothing else. -/
def versionFS (content : String) : RPath → Option String :=
  fun p => if p = ["pkg", VERSION_FILE] then some content else none

/-- An install environment whose filesystem is empty and whose external
operations all succeed. -/
def envNone : InstallEnv :=
  { fs := fun _ => none
    destRoot := ["dest"]
    builderRes := fun _ => none
    permsRes := fun _ _ => none
    finishRes := Except.ok 7 }

/-- The end-to-end scenario package, copy mode: root `root`, declared
component `rustc`. -/
def pkgRustcCopy : DirectoryPackage :=
  { path := ["root"], components := ["rustc"], copy := true }

/-- The end-to-end scenario package, move mode. -/
def pkgRustcMove : DirectoryPackage :=
  { path := ["root"], components := ["rustc"], copy := false }

/-- The end-to-end scenario environment: `root/rustc/manifest.in` holds
`"file bin/rustc"` and `"dir share/doc"`, and every external operation
succeeds. -/
def envRustc : InstallEnv :=
  { fs := fun p =>
      if p = ["root", "rustc", "manifest.in"] then some "file bin/rustc\ndir share/doc"
      else none
    destRoot := ["dest"]
    builderRes := fun _ => none
    permsRes := fun _ _ => none
    finishRes := Except.ok 7 }

/-- Claim C3: the Version Guard succeeds iff the file content, after
trimming, equals `"3"`; the claim additionally lists `"3 "` (trailing
space) among the inputs that fail with `BadInstallerVersion`.  That
listed example is false: trimming removes the trailing space, so `"3 "`
validates successfully. -/
theorem C3_counterexample :
    validate_installer_version (versionFS "3 ") ["pkg"] = Except.ok ()
    ∧ rustTrim "3 " = "3"
    ∧ validate_installer_version (versionFS "3 ") ["pkg"] ≠
        Except.error (ErrorKind.BadInstallerVersion (rustTrim "3 ")) := by
  decide

/-- Claim C3 (amended): for a readable version-marker file the Version
Guard succeeds iff the trimmed content equals `"3"`, any other trimmed
content (e.g. `"03"`, the empty string — but not `"3 "`, which trims to
`"3"`) fails with `BadInstallerVersion` carrying the trimmed string, and
an unreadable file yields the distinct read-failure error, never
`BadInstallerVersion`. -/
theorem C3_version_guard (fs : RPath → Option String) (path : RPath) (content : String) :
    (fs (path ++ [VERSION_FILE]) = some content →
      ((validate_installer_version fs path = Except.ok () ↔ rustTrim content = INSTALLER_VERSION)
       ∧ (rustTrim content ≠ INSTALLER_VERSION →
           validate_installer_version fs path =
             Except.error (ErrorKind.BadInstallerVersion (rustTrim content)))))
    ∧ (fs (path ++ [VERSION_FILE]) = none →
        validate_installer_version fs path =
          Except.error (ErrorKind.ReadingFile "installer version")) := by
  constructor
  · intro h
    constructor
    · simp [validate_installer_version, read_file, h]
    · intro hne
      simp [validate_installer_version, read_file, h, hne]
  · intro h
    simp [validate_installer_version, read_file, h]

/-- Witness for C3: content `"03"` fails with `BadInstallerVersion "03"`,
and an unreadable marker yields the read-failure error. -/
theorem C3_witness :
    validate_installer_version (versionFS "03") ["pkg"] =
      Except.error (ErrorKind.BadInstallerVersion "03")
    ∧ validate_installer_version (fun _ => none) ["pkg"] =
      Except.error (ErrorKind.ReadingFile "installer version") := by
  refine ⟨?_, ?_⟩
  · have h := ((C3_version_guard (versionFS "03") ["pkg"] "03").1 (by decide)).2 (by decide)
    simpa using h
  · exact (C3_version_guard (fun _ => none) ["pkg"] "").2 rfl

/-- A package whose only declared component is `c`, at root `root`. -/
def pkgOnlyC : DirectoryPackage :=
  { path := ["root"], components := ["c"], copy := true }

/-- Claim C2: the claim says the short name is used only when the package
recognizes it.  False: with component set `{c}`, name `a` and short name
`b` — neither of which the set contains — the code resolves to `b` (the
short name is used whenever present), not to the literal `a` the claim
requires, and `install` accordingly reads `root/b/manifest.in`. -/
theorem C2_counterexample :
    actualName ["c"] "a" (some "b") = "b"
    ∧ actualNameClaim ["c"] "a" (some "b") = "a"
    ∧ actualName ["c"] "a" (some "b") ≠ actualNameClaim ["c"] "a" (some "b")
    ∧ (install pkgOnlyC envNone "a" (some "b")).1.head? =
        some (InstallEvent.manifestRead ["root", "b", "manifest.in"]) := by
  decide

/-- Claim C2 (amended): the on-disk component directory is the literal
component name when the component set contains it; otherwise the short
name whenever one is present — whether or not the set contains it;
otherwise the literal component name.  `install`'s manifest read targets
exactly that directory. -/
theorem C2_resolution (pkg : DirectoryPackage) (env : InstallEnv)
    (name : String) (short_name : Option String) :
    ((install pkg env name short_name).1.head? =
        some (InstallEvent.manifestRead
          (pkg.path ++ [actualName pkg.components name short_name, "manifest.in"])))
    ∧ (pkg.components.contains name = true →
        actualName pkg.components name short_name = name)
    ∧ (pkg.components.contains name = false →
        ∀ n, short_name = some n → actualName pkg.components name short_name = n)
    ∧ (short_name = none → actualName pkg.components name short_name = name) := by
  refine ⟨?_, ?_, ?_, ?_⟩
  · cases h : env.fs (pkg.path ++ [actualName pkg.components name short_name, "manifest.in"]) with
    | none => simp [install, read_file, h]
    | some m =>
      cases hr : (installLines pkg env name
          (pkg.path ++ [actualName pkg.components name short_name]) (rustLines m)).2 with
      | some e => simp [install, read_file, h, hr]
      | none =>
        cases hf : env.finishRes with
        | error e => simp [install, read_file, h, hr, hf]
        | ok tx => simp [install, read_file, h, hr, hf]
  · intro h
    have h' : name ∈ pkg.components := by simpa using h
    simp [actualName, h']
  · intro h n hn
    have h' : name ∉ pkg.components := by simpa using h
    simp [actualName, h', hn]
  · intro h
    subst h
    by_cases hc : name ∈ pkg.components <;> simp [actualName, hc]

/-- Witness for C2: resolution at concrete inputs — an exact match, a
present short name over a non-matching name, and an absent short name. -/
theorem C2_witness :
    actualName ["rustc"] "rustc" (some "rc") = "rustc"
    ∧ actualName ["rc"] "rustc" (some "rc") = "rc"
    ∧ actualName ["x"] "rustc" none = "rustc" := by
  refine ⟨?_, ?_, ?_⟩
  · exact (C2_resolution pkgRustcCopy envNone "rustc" (some "rc")).2.1 (by decide)
  · exact (C2_resolution { path := ["root"], components := ["rc"], copy := true } envNone
      "rustc" (some "rc")).2.2.1 (by decide) "rc" rfl
  · exact (C2_resolution { path := ["root"], components := ["x"], copy := true } envNone
      "rustc" none).2.2.2 rfl

/-- Claim C1: the claim says an unreadable component manifest fails with
`CorruptComponent` carrying the component name.  False: `install`
propagates the manifest-read failure unchanged as the distinct
read-failure error of the file reader; it is not folded into
`CorruptComponent`. -/
theorem C1_counterexample :
    (install pkgRustcCopy envNone "rustc" none).2 =
      Except.error (InstallError.kind (ErrorKind.ReadingFile "package manifest"))
    ∧ (install pkgRustcCopy envNone "rustc" none).2 ≠
      Except.error (InstallError.kind (ErrorKind.CorruptComponent "rustc")) := by
  decide

/-- Claim C1 (amended): when the component's manifest file
(`package_root/actual_component_name/manifest.in`) cannot be read,
`install` fails with the distinct read-failure error of the file reader,
propagated unchanged; `CorruptComponent(component_name)` is produced for
manifest lines that fail to decode, not for read failures. -/
theorem C1_manifest_errors (pkg : DirectoryPackage) (env : InstallEnv)
    (name : String) (short_name : Option String) :
    (env.fs (pkg.path ++ [actualName pkg.components name short_name, "manifest.in"]) = none →
      (install pkg env name short_name).2 =
        Except.error (InstallError.kind (ErrorKind.ReadingFile "package manifest")))
    ∧ (∀ m l ls,
        env.fs (pkg.path ++ [actualName pkg.components name short_name, "manifest.in"]) = some m →
        rustLines m = l :: ls →
        ComponentPart.decode l = none →
        (install pkg env name short_name).2 =
          Except.error (InstallError.kind (ErrorKind.CorruptComponent name))) := by
  constructor
  · intro h
    simp [install, read_file, h]
  · intro m l ls h hl hd
    simp [install, read_file, h, hl, installLines, lineOp, hd]

/-- Witness for C1: a package whose manifest is unreadable yields the
read-failure error, and one whose manifest opens with an undecodable
directive yields `CorruptComponent`. -/
theorem C1_witness :
    (install pkgRustcCopy envNone "rustc" none).2 =
      Except.error (InstallError.kind (ErrorKind.ReadingFile "package manifest"))
    ∧ (install pkgRustcCopy
        { envNone with fs := fun p =>
            if p = ["root", "rustc", "manifest.in"] then some "link bin/rustc" else none }
        "rustc" none).2 =
      Except.error (InstallError.kind (ErrorKind.CorruptComponent "rustc")) := by
  constructor
  · exact (C1_manifest_errors pkgRustcCopy envNone "rustc" none).1 (by decide)
  · exact (C1_manifest_errors pkgRustcCopy
      { envNone with fs := fun p =>
          if p = ["root", "rustc", "manifest.in"] then some "link bin/rustc" else none }
      "rustc" none).2 "link bin/rustc" "link bin/rustc" [] (by decide) (by decide) (by decide)

/-- Claim C6: installing component `rustc` from a directory package whose
`manifest.in` holds exactly `"file bin/rustc"` and `"dir share/doc"`
issues exactly two builder calls — `copy_file`/`move_file` with source
`root/rustc/bin/rustc`, then `copy_dir`/`move_dir` with source
`root/rustc/share/doc`, the variant per the copy flag — each followed by
a permission-normalization pass on the installed destination, and ends
with a successful `finish()` returning the updated transaction. -/
theorem C6_end_to_end :
    (install pkgRustcCopy envRustc "rustc" none).1 =
      [InstallEvent.manifestRead ["root", "rustc", "manifest.in"],
       InstallEvent.builderOpen "rustc",
       InstallEvent.builderCall (BuilderOp.copy_file "bin/rustc" ["root", "rustc", "bin", "rustc"]),
       InstallEvent.permsPass ["dest", "bin", "rustc"] ["root", "rustc", "bin", "rustc"],
       InstallEvent.builderCall (BuilderOp.copy_dir "share/doc" ["root", "rustc", "share", "doc"]),
       InstallEvent.permsPass ["dest", "share", "doc"] ["root", "rustc", "share", "doc"],
       InstallEvent.finish]
    ∧ (install pkgRustcCopy envRustc "rustc" none).2 = Except.ok 7
    ∧ (install pkgRustcMove envRustc "rustc" none).1 =
      [InstallEvent.manifestRead ["root", "rustc", "manifest.in"],
       InstallEvent.builderOpen "rustc",
       InstallEvent.builderCall (BuilderOp.move_file "bin/rustc" ["root", "rustc", "bin", "rustc"]),
       InstallEvent.permsPass ["dest", "bin", "rustc"] ["root", "rustc", "bin", "rustc"],
       InstallEvent.builderCall (BuilderOp.move_dir "share/doc" ["root", "rustc", "share", "doc"]),
       InstallEvent.permsPass ["dest", "share", "doc"] ["root", "rustc", "share", "doc"],
       InstallEvent.finish]
    ∧ (install pkgRustcMove envRustc "rustc" none).2 = Except.ok 7 := by
  decide

/-- Claim C10: the drain's scope-exit logic asserts that the in-flight
count observed at drain start is strictly below `32767`
(`assert!(32767 > prev_files)`): at `32767` or more it panics instead of
draining, and below `32767` it never panics. -/
theorem C10_drain_assert (initial : Nat) (reads : List Nat) :
    (32767 ≤ initial → unpackerDrop initial reads = DrainResult.panicked)
    ∧ (initial < 32767 → unpackerDrop initial reads ≠ DrainResult.panicked) := by
  constructor
  · intro h
    have hn : ¬ 32767 > initial := by omega
    simp [unpackerDrop, hn]
  · intro h
    have hp : 32767 > initial := h
    simp only [unpackerDrop, if_pos hp]
    cases hd : drainPoll reads initial with
    | none => simp [hd]
    | some p => simp [hd]

/-- Witness for C10: 32767 deferred handles panic the drain; 3 do not. -/
theorem C10_witness :
    unpackerDrop 32767 [] = DrainResult.panicked
    ∧ unpackerDrop 3 [0] ≠ DrainResult.panicked := by
  constructor
  · exact (C10_drain_assert 32767 []).1 (by decide)
  · exact (C10_drain_assert 3 [0]).2 (by decide)

/-- The polling loop only ever returns after a load of exactly zero: a
successful `drainPoll` ends with final counter `0`. -/
theorem aux_drainPoll_final (reads : List Nat) : ∀ current evs fin,
    drainPoll reads current = some (evs, fin) → fin = 0 := by
  induction reads with
  | nil =>
    intro current evs fin h
    cases current with
    | zero =>
      simp [drainPoll] at h
      exact h.2.symm
    | succ n => simp [drainPoll] at h
  | cons r rest ih =>
    intro current evs fin h
    cases current with
    | zero =>
      simp [drainPoll] at h
      exact h.2.symm
    | succ n =>
      simp only [drainPoll] at h
      rcases Option.map_eq_some'.1 h with ⟨p, hp, hev⟩
      have : p.2 = 0 := ih r p.1 p.2 (by simpa using hp)
      have h2 : fin = p.2 := by
        have := congrArg Prod.snd hev
        simpa using this.symm
      omega

/-- When no load ever reads zero, the polling loop never returns. -/
theorem aux_drainPoll_stuck (reads : List Nat) : ∀ current, current ≠ 0 → 0 ∉ reads →
    drainPoll reads current = none := by
  induction reads with
  | nil =>
    intro current hc _
    cases current with
    | zero => exact absurd rfl hc
    | succ n => simp [drainPoll]
  | cons r rest ih =>
    intro current hc h0
    cases current with
    | zero => exact absurd rfl hc
    | succ n =>
      have hr : r ≠ 0 := by
        intro hr
        exact h0 (by simp [hr])
      have hnone : drainPoll rest r = none := ih r hr (fun hm => h0 (List.mem_cons_of_mem _ hm))
      simp [drainPoll, hnone]

/-- Claim C9: the deferred handle drain never returns control while the
in-flight counter is nonzero — a normal return means the polling loop's
final counter load was exactly `0`, and the worker pool is joined within
the returned trace; when the counter never reads zero, the drain does not
return at all (the model is stuck polling). -/
theorem C9_drain_to_zero (initial : Nat) (reads : List Nat) :
    (∀ evs, unpackerDrop initial reads = DrainResult.done evs →
      (∃ polls, drainPoll reads initial = some (polls, 0)) ∧ DrainEvent.poolJoin ∈ evs)
    ∧ (initial < 32767 → initial ≠ 0 → 0 ∉ reads →
        unpackerDrop initial reads = DrainResult.stuck) := by
  constructor
  · intro evs h
    by_cases hp : 32767 > initial
    · simp only [unpackerDrop, if_pos hp] at h
      cases hd : drainPoll reads initial with
      | none => rw [hd] at h; exact absurd h (by simp)
      | some p =>
        obtain ⟨polls, fin⟩ := p
        rw [hd] at h
        have hfin : fin = 0 := aux_drainPoll_final reads initial polls fin hd
        subst hfin
        constructor
        · exact ⟨polls, rfl⟩
        · have h' : ((if initial > 50 then
              [DrainEvent.downloadFinished, DrainEvent.pushUnits "handles",
               DrainEvent.contentLength initial] ++ [DrainEvent.printClosing initial]
            else
              [DrainEvent.downloadFinished, DrainEvent.pushUnits "handles",
               DrainEvent.contentLength initial]) ++ polls ++
              [DrainEvent.poolJoin, DrainEvent.downloadFinished, DrainEvent.popUnits]) = evs := by
            simpa using h
          rw [← h']
          simp
    · simp only [unpackerDrop, if_neg hp] at h
      exact absurd h (by simp)
  · intro h1 h2 h3
    have hs : drainPoll reads initial = none := aux_drainPoll_stuck reads initial h2 h3
    simp [unpackerDrop, h1, hs]

/-- Witness for C9: after three files are deferred, loads `1` then `0`
finish the drain with the pool joined and the final load zero. -/
theorem C9_witness :
    (∃ polls, drainPoll [1, 0] 3 = some (polls, 0))
    ∧ DrainEvent.poolJoin ∈
        [DrainEvent.downloadFinished, DrainEvent.pushUnits "handles",
         DrainEvent.contentLength 3, DrainEvent.dataReceived 2, DrainEvent.dataReceived 1,
         DrainEvent.poolJoin, DrainEvent.downloadFinished, DrainEvent.popUnits] :=
  (C9_drain_to_zero 3 [1, 0]).1
    [DrainEvent.downloadFinished, DrainEvent.pushUnits "handles",
     DrainEvent.contentLength 3, DrainEvent.dataReceived 2, DrainEvent.dataReceived 1,
     DrainEvent.poolJoin, DrainEvent.downloadFinished, DrainEvent.popUnits]
    (by decide)

/-- An extraction environment where no parent exists yet and every
directory creation succeeds. -/
def envU : UnpackEnv := { parentExists := fun _ => false, createDirOk := fun _ => true }

/-- An extraction environment where directory creation always fails. -/
def envUFail : UnpackEnv := { parentExists := fun _ => false, createDirOk := fun _ => false }

/-- A successful extraction loop unpacks exactly the stripped
destinations of its items, after the already-accumulated ones. -/
theorem aux_unpackLoop_ok (env : UnpackEnv) (dest : RPath) :
    ∀ (items : List StreamItem) (checked acc : List RPath) (l : List RPath),
    unpackLoop env dest items checked acc = Except.ok l →
    l = acc.reverse ++ strippedDests dest items := by
  intro items
  induction items with
  | nil =>
    intro checked acc l h
    simp [unpackLoop] at h
    simp [strippedDests, ← h]
  | cons i rest ih =>
    intro checked acc l h
    cases i with
    | err => simp [unpackLoop] at h
    | ok e =>
      cases hp : e.pathResult with
      | none => simp [unpackLoop, hp] at h
      | some rel =>
        simp only [unpackLoop, hp] at h
        split at h
        · exact absurd h (by simp)
        · split at h
          · have hrec := ih _ ((dest ++ rel.tail) :: acc) l h
            simp [strippedDests, hp, hrec, List.append_assoc]
          · exact absurd h (by simp)

/-- Every error the parent-directory step produces is
`ExtractingPackage`. -/
theorem aux_checkParent_err (env : UnpackEnv) (checked : List RPath) (p : RPath)
    (k : ErrorKind) (h : checkParent env checked p = Except.error k) :
    k = ErrorKind.ExtractingPackage := by
  unfold checkParent at h
  repeat' split at h
  all_goals simp_all

/-- Every error the extraction loop produces is `ExtractingPackage`. -/
theorem aux_unpackLoop_err (env : UnpackEnv) (dest : RPath) :
    ∀ (items : List StreamItem) (checked acc : List RPath) (k : ErrorKind),
    unpackLoop env dest items checked acc = Except.error k →
    k = ErrorKind.ExtractingPackage := by
  intro items
  induction items with
  | nil =>
    intro checked acc k h
    simp [unpackLoop] at h
  | cons i rest ih =>
    intro checked acc k h
    cases i with
    | err =>
      simp [unpackLoop] at h
      exact h.symm
    | ok e =>
      cases hp : e.pathResult with
      | none =>
        simp [unpackLoop, hp] at h
        exact h.symm
      | some rel =>
        simp only [unpackLoop, hp] at h
        split at h
        · rename_i k' heq
          have hk : k' = k := by simpa using h
          exact hk ▸ aux_checkParent_err env checked (dest ++ rel.tail) k' heq
        · split at h
          · exact ih _ ((dest ++ rel.tail) :: acc) k h
          · have hk : ErrorKind.ExtractingPackage = k := by simpa using h
            exact hk.symm

/-- Claim C7: every archive entry is unpacked at the destination root
joined with the entry's recorded path minus its first component — a
successful extraction produces exactly the stripped destinations, and for
an entry recorded as `top :: rest` (arbitrarily deep `rest`) the target
is `dest ++ rest`, without the synthetic top segment. -/
theorem C7_strip_first_component (env : UnpackEnv) (dest : RPath)
    (items : List StreamItem) (l : List RPath)
    (h : unpack_without_first_dir env dest (Except.ok items) = Except.ok l) :
    l = strippedDests dest items
    ∧ ∀ (top : String) (rest : RPath),
        strippedDests dest [StreamItem.ok { pathResult := some (top :: rest), unpackOk := true }] =
          [dest ++ rest] := by
  constructor
  · have hl := aux_unpackLoop_ok env dest items [] [] l
      (by simpa [unpack_without_first_dir] using h)
    simpa using hl
  · intro top rest
    simp [strippedDests]

/-- Witness for C7: extracting the single entry `pkg-1.0-x86/bin/tool`
into `scratch` writes exactly `scratch/bin/tool`. -/
theorem C7_witness :
    [["scratch", "bin", "tool"]] =
      strippedDests ["scratch"]
        [StreamItem.ok { pathResult := some ["pkg-1.0-x86", "bin", "tool"], unpackOk := true }] :=
  (C7_strip_first_component envU ["scratch"]
    [StreamItem.ok { pathResult := some ["pkg-1.0-x86", "bin", "tool"], unpackOk := true }]
    [["scratch", "bin", "tool"]] (by decide)).1

/-- Claim C8: every failure during archive extraction — reading the entry
stream, decoding an entry's path, creating a parent directory, or
unpacking an entry — surfaces as the single error kind
`ExtractingPackage`, which carries no indication of which entries
succeeded. -/
theorem C8_single_error_kind (env : UnpackEnv) (dest : RPath)
    (entries : Except Unit (List StreamItem)) (k : ErrorKind)
    (h : unpack_without_first_dir env dest entries = Except.error k) :
    k = ErrorKind.ExtractingPackage := by
  cases entries with
  | error u =>
    simp [unpack_without_first_dir] at h
    exact h.symm
  | ok items => exact aux_unpackLoop_err env dest items [] [] k h

/-- Witness for C8: four distinct failure causes — stream failure, path
decode failure, directory-creation failure, unpack failure — all yield
the identical `ExtractingPackage` error. -/
theorem C8_witness :
    unpack_without_first_dir envU ["scratch"] (Except.error ()) =
      Except.error ErrorKind.ExtractingPackage
    ∧ unpack_without_first_dir envU ["scratch"] (Except.ok [StreamItem.err]) =
      Except.error ErrorKind.ExtractingPackage
    ∧ unpack_without_first_dir envU ["scratch"]
        (Except.ok [StreamItem.ok { pathResult := none, unpackOk := true }]) =
      Except.error ErrorKind.ExtractingPackage
    ∧ unpack_without_first_dir envUFail ["scratch"]
        (Except.ok [StreamItem.ok { pathResult := some ["pkg", "bin", "tool"], unpackOk := true }]) =
      Except.error ErrorKind.ExtractingPackage
    ∧ unpack_without_first_dir envU ["scratch"]
        (Except.ok [StreamItem.ok { pathResult := some ["pkg", "bin", "tool"], unpackOk := false }]) =
      Except.error ErrorKind.ExtractingPackage
    ∧ ErrorKind.ExtractingPackage = ErrorKind.ExtractingPackage := by
  refine ⟨by decide, by decide, by decide, by decide, by decide, ?_⟩
  exact C8_single_error_kind envU ["scratch"] (Except.ok [StreamItem.err])
    ErrorKind.ExtractingPackage (by decide)

/-- Looking up after a key-preserving metadata rewrite applies the
rewrite to the found metadata. -/
theorem aux_fsLookup_map (g : RPath → Metadata → Metadata) (fs : FileSystem) (p : RPath) :
    fsLookup (fs.map (fun e => (e.1, g e.1 e.2))) p = (fsLookup fs p).map (g p) := by
  induction fs with
  | nil => simp [fsLookup]
  | cons e rest ih =>
    by_cases hp : e.1 = p
    · subst hp
      simp [fsLookup]
    · simp only [List.map_cons]
      rw [fsLookup, fsLookup, List.find?_cons_of_neg _ (by simpa using hp),
        List.find?_cons_of_neg _ (by simpa using hp)]
      exact ih

/-- Claim C4: the claim says the target mode is decided from the source
file's metadata.  False: a single installed file whose destination
metadata is `0o644` is left at `0o644` even when its source metadata was
user-rwx `0o700` (and the source parent is not `bin`), whereas the
claim's source-based rule demands `0o755` — `set_file_perms` reads the
destination's metadata, not the source's. -/
theorem C4_counterexample :
    set_file_perms [(["dest", "lib", "tool"], { isDir := false, mode := 0o644 })]
        ["dest", "lib", "tool"] ["root", "comp", "lib", "tool"] =
      Except.ok [(["dest", "lib", "tool"], { isDir := false, mode := 0o644 })]
    ∧ claimFileMode { isDir := false, mode := 0o700 } ["root", "comp", "lib", "tool"] = 0o755
    ∧ (0o644 : Nat) ≠ 0o755 := by
  decide

/-- Claim C4 (amended): permission normalization decides each target mode
from the DESTINATION's metadata: on a directory destination every entry
under it that is a directory or has user-rwx destination metadata is set
to `0o755` and every other one to `0o644`; a single file is set to
`0o755` exactly when its source parent path ends in a segment named `bin`
or its own destination metadata is user-rwx, else `0o644`; a missing
single file is a file-permissions failure.  Only the `bin` test consults
the source path; source metadata is never consulted. -/
theorem C4_perms_from_dest_metadata (fs : FileSystem) (dest src : RPath) (m : Metadata) :
    (fsLookup fs dest = some m → m.isDir = true →
      ∃ fs', set_file_perms fs dest src = Except.ok fs' ∧
        ∀ p mp, fsLookup fs p = some mp →
          fsLookup fs' p = some (if pathStartsWith p dest then
              { mp with mode := if needs_x mp then 0o755 else 0o644 }
            else mp))
    ∧ (fsLookup fs dest = some m → m.isDir = false →
      ∃ fs', set_file_perms fs dest src = Except.ok fs' ∧
        fsLookup fs' dest =
          some { m with mode := if srcParentIsBin src || needs_x m then 0o755 else 0o644 }
        ∧ ∀ p mp, p ≠ dest → fsLookup fs p = some mp → fsLookup fs' p = some mp)
    ∧ (fsLookup fs dest = none →
        set_file_perms fs dest src = Except.error ErrorKind.ComponentFilePermissionsFailed) := by
  refine ⟨?_, ?_, ?_⟩
  · intro h hm
    refine ⟨fs.map (fun e =>
        (e.1, if pathStartsWith e.1 dest then
                { e.2 with mode := if needs_x e.2 then 0o755 else 0o644 }
              else e.2)), by simp [set_file_perms, h, hm], ?_⟩
    intro p mp hp
    have := aux_fsLookup_map
      (fun q mq => if pathStartsWith q dest then
          { mq with mode := if needs_x mq then 0o755 else 0o644 } else mq) fs p
    rw [this, hp]
    rfl
  · intro h hm
    refine ⟨fs.map (fun e =>
        (e.1, if e.1 = dest then
                { e.2 with mode := if srcParentIsBin src || needs_x m then 0o755 else 0o644 }
              else e.2)), by simp [set_file_perms, h, hm], ?_, ?_⟩
    · have := aux_fsLookup_map
        (fun q mq => if q = dest then
            { mq with mode := if srcParentIsBin src || needs_x m then 0o755 else 0o644 }
          else mq) fs dest
      rw [this, h]
      simp
    · intro p mp hnp hp
      have := aux_fsLookup_map
        (fun q mq => if q = dest then
            { mq with mode := if srcParentIsBin src || needs_x m then 0o755 else 0o644 }
          else mq) fs p
      rw [this, hp]
      simp [hnp]
  · intro h
    simp [set_file_perms, h]

/-- A destination tree: directory `d` holding a user-rwx file `d/x` and a
non-executable file `d/y`, plus an unrelated file `o`. -/
def fsDirW : FileSystem :=
  [(["d"], { isDir := true, mode := 0o755 }),
   (["d", "x"], { isDir := false, mode := 0o700 }),
   (["d", "y"], { isDir := false, mode := 0o600 }),
   (["o"], { isDir := false, mode := 0o600 })]

/-- A single destination file `d/t` with non-executable metadata. -/
def fsBinW : FileSystem := [(["d", "t"], { isDir := false, mode := 0o600 })]

/-- Witness for C4: normalization over the tree `fsDirW`, and over the
single file `fsBinW` installed from under a `bin` source parent. -/
theorem C4_witness :
    (∃ fs', set_file_perms fsDirW ["d"] ["root", "c"] = Except.ok fs' ∧
      ∀ p mp, fsLookup fsDirW p = some mp →
        fsLookup fs' p = some (if pathStartsWith p ["d"] then
            { mp with mode := if needs_x mp then 0o755 else 0o644 }
          else mp))
    ∧ (∃ fs', set_file_perms fsBinW ["d", "t"] ["root", "bin", "t"] = Except.ok fs' ∧
        fsLookup fs' ["d", "t"] =
          some { ({ isDir := false, mode := 0o600 } : Metadata) with
            mode := if srcParentIsBin ["root", "bin", "t"]
                || needs_x { isDir := false, mode := 0o600 } then 0o755 else 0o644 }
        ∧ ∀ p mp, p ≠ ["d", "t"] → fsLookup fsBinW p = some mp → fsLookup fs' p = some mp) :=
  ⟨(C4_perms_from_dest_metadata fsDirW ["d"] ["root", "c"]
      { isDir := true, mode := 0o755 }).1 (by decide) (by decide),
   (C4_perms_from_dest_metadata fsBinW ["d", "t"] ["root", "bin", "t"]
      { isDir := false, mode := 0o600 }).2.1 (by decide) (by decide)⟩

/-- Every builder call a manifest line produces has source path
`root/relative_path` and the copy-versus-move variant of the package's
copy flag. -/
theorem aux_lineOp_spec (pkg : DirectoryPackage) (root : RPath) (l : String) (op : BuilderOp)
    (h : lineOp pkg root l = some op) :
    op.src = root ++ pathComponentsOf op.relpath ∧ op.isCopy = pkg.copy := by
  unfold lineOp at h
  repeat' split at h
  all_goals simp_all [BuilderOp.src, BuilderOp.relpath, BuilderOp.isCopy]
  all_goals (subst h; simp_all [BuilderOp.src, BuilderOp.relpath, BuilderOp.isCopy])

/-- Dropping the head of a nonempty-tailed list keeps the last element. -/
theorem aux_getLast?_cons {α : Type} (a : α) (l : List α) (h : l ≠ []) :
    (a :: l).getLast? = l.getLast? := by
  cases l with
  | nil => exact absurd rfl h
  | cons b t => simp [List.getLast?]

/-- Installed-line invariant: every builder call in the loop's trace is
well-formed per `aux_lineOp_spec`. -/
theorem aux_installLines_ops (pkg : DirectoryPackage) (env : InstallEnv) (name : String)
    (root : RPath) :
    ∀ (ls : List String) (op : BuilderOp),
    op ∈ builderCalls (installLines pkg env name root ls).1 →
    op.src = root ++ pathComponentsOf op.relpath ∧ op.isCopy = pkg.copy := by
  intro ls
  induction ls with
  | nil =>
    intro op hop
    simp [installLines, builderCalls] at hop
  | cons l rest ih =>
    intro op hop
    cases hlo : lineOp pkg root l with
    | none => simp [installLines, hlo, builderCalls] at hop
    | some op0 =>
      have hop0 := aux_lineOp_spec pkg root l op0 hlo
      cases hbr : env.builderRes op0 with
      | some e0 =>
        simp [installLines, hlo, hbr, builderCalls] at hop
        exact hop ▸ hop0
      | none =>
        cases hpr : env.permsRes (env.destRoot ++ pathComponentsOf op0.relpath) op0.src with
        | some k =>
          simp [installLines, hlo, hbr, hpr, builderCalls] at hop
          exact hop ▸ hop0
        | none =>
          simp only [installLines, hlo, hbr, hpr, builderCalls, List.filterMap_cons] at hop
          simp at hop
          rcases hop with hop | hop
          · exact hop ▸ hop0
          · exact ih op (by simpa [builderCalls] using hop)

/-- Installed-line invariant: a builder call in the trace whose builder
outcome is a failure is the trace's final event; the loop stops with that
error unchanged, and no `finish` event occurs. -/
theorem aux_installLines_fail (pkg : DirectoryPackage) (env : InstallEnv) (name : String)
    (root : RPath) :
    ∀ (ls : List String) (op : BuilderOp) (e : String),
    op ∈ builderCalls (installLines pkg env name root ls).1 →
    env.builderRes op = some e →
    (installLines pkg env name root ls).2 = some (InstallError.builder e)
    ∧ (installLines pkg env name root ls).1.getLast? = some (InstallEvent.builderCall op)
    ∧ InstallEvent.finish ∉ (installLines pkg env name root ls).1 := by
  intro ls
  induction ls with
  | nil =>
    intro op e hop _
    simp [installLines, builderCalls] at hop
  | cons l rest ih =>
    intro op e hop hres
    cases hlo : lineOp pkg root l with
    | none => simp [installLines, hlo, builderCalls] at hop
    | some op0 =>
      cases hbr : env.builderRes op0 with
      | some e0 =>
        simp [installLines, hlo, hbr, builderCalls] at hop
        subst hop
        rw [hres] at hbr
        have he : e0 = e := by simpa using hbr.symm
        subst he
        simp [installLines, hlo, hres, builderCalls]
      | none =>
        cases hpr : env.permsRes (env.destRoot ++ pathComponentsOf op0.relpath) op0.src with
        | some k =>
          simp [installLines, hlo, hbr, hpr, builderCalls] at hop
          subst hop
          rw [hres] at hbr
          exact absurd hbr (by simp)
        | none =>
          have hop' : op = op0 ∨ op ∈ builderCalls (installLines pkg env name root rest).1 := by
            simpa [installLines, hlo, hbr, hpr, builderCalls] using hop
          rcases hop' with hop' | hop'
          · subst hop'
            rw [hres] at hbr
            exact absurd hbr (by simp)
          · have hne : (installLines pkg env name root rest).1 ≠ [] := by
              intro h0
              rw [h0] at hop'
              simp [builderCalls] at hop'
            have hrec := ih op e hop' hres
            refine ⟨?_, ?_, ?_⟩
            · simp only [installLines, hlo, hbr, hpr]
              exact hrec.1
            · simp only [installLines, hlo, hbr, hpr]
              rw [aux_getLast?_cons _ _ (by simp [hne]), aux_getLast?_cons _ _ hne]
              exact hrec.2.1
            · simp only [installLines, hlo, hbr, hpr]
              simp [hrec.2.2]

/-- Claim C5: every builder call issued by `install` has source path
`package_root/actual_component_name/relative_path` and the copy-or-move
variant selected solely by the package's copy flag; a builder call that
fails aborts the install immediately — its error is propagated unchanged,
it is the final event, and `finish()` is never called. -/
theorem C5_builder_contract (pkg : DirectoryPackage) (env : InstallEnv)
    (name : String) (short_name : Option String) :
    (∀ op, op ∈ builderCalls (install pkg env name short_name).1 →
      op.src = (pkg.path ++ [actualName pkg.components name short_name]) ++
          pathComponentsOf op.relpath
      ∧ op.isCopy = pkg.copy)
    ∧ (∀ op e, op ∈ builderCalls (install pkg env name short_name).1 →
      env.builderRes op = some e →
      (install pkg env name short_name).2 = Except.error (InstallError.builder e)
      ∧ (install pkg env name short_name).1.getLast? = some (InstallEvent.builderCall op)
      ∧ InstallEvent.finish ∉ (install pkg env name short_name).1) := by
  cases hm : env.fs (pkg.path ++ [actualName pkg.components name short_name, "manifest.in"]) with
  | none =>
    constructor
    · intro op hop
      simp [install, read_file, hm, builderCalls] at hop
    · intro op e hop _
      simp [install, read_file, hm, builderCalls] at hop
  | some c =>
    have hcalls : builderCalls (install pkg env name short_name).1 =
        builderCalls (installLines pkg env name
          (pkg.path ++ [actualName pkg.components name short_name]) (rustLines c)).1 := by
      cases hr : (installLines pkg env name
          (pkg.path ++ [actualName pkg.components name short_name]) (rustLines c)).2 with
      | some e' => simp [install, read_file, hm, hr, builderCalls]
      | none =>
        cases hf : env.finishRes with
        | error e0 => simp [install, read_file, hm, hr, hf, builderCalls]
        | ok tx => simp [install, read_file, hm, hr, hf, builderCalls]
    constructor
    · intro op hop
      rw [hcalls] at hop
      exact aux_installLines_ops pkg env name _ (rustLines c) op hop
    · intro op e hop hres
      rw [hcalls] at hop
      have hfail := aux_installLines_fail pkg env name
        (pkg.path ++ [actualName pkg.components name short_name]) (rustLines c) op e hop hres
      have hne : (installLines pkg env name
          (pkg.path ++ [actualName pkg.components name short_name]) (rustLines c)).1 ≠ [] := by
        intro h0
        rw [h0] at hop
        simp [builderCalls] at hop
      cases hr : (installLines pkg env name
          (pkg.path ++ [actualName pkg.components name short_name]) (rustLines c)).2 with
      | none =>
        have h1 := hfail.1
        rw [hr] at h1
        exact absurd h1 (by simp)
      | some e' =>
        have he' : e' = InstallError.builder e := by
          have h1 := hfail.1
          rw [hr] at h1
          simpa using h1
        subst he'
        have hfst : (install pkg env name short_name).1 =
            InstallEvent.manifestRead
                (pkg.path ++ [actualName pkg.components name short_name, "manifest.in"]) ::
              InstallEvent.builderOpen name ::
              (installLines pkg env name
                (pkg.path ++ [actualName pkg.components name short_name]) (rustLines c)).1 := by
          simp [install, read_file, hm, hr]
        refine ⟨?_, ?_, ?_⟩
        · simp [install, read_file, hm, hr]
        · rw [hfst, aux_getLast?_cons _ _ (by simp [hne]), aux_getLast?_cons _ _ hne]
          exact hfail.2.1
        · rw [hfst]
          simp [hfail.2.2]

/-- The end-to-end environment with one failing builder call: the
`copy_dir` for `share/doc` fails with an opaque builder error. -/
def envRustcFail : InstallEnv :=
  { envRustc with
    builderRes := fun op =>
      if op = BuilderOp.copy_dir "share/doc" ["root", "rustc", "share", "doc"] then
        some "disk full"
      else none }

/-- Witness for C5: with the second builder call failing, the install
aborts with that error unchanged as its last event, `finish` is never
called, and the call's source path is the component root joined with its
relative path. -/
theorem C5_witness :
    (install pkgRustcCopy envRustcFail "rustc" none).2 =
      Except.error (InstallError.builder "disk full")
    ∧ (install pkgRustcCopy envRustcFail "rustc" none).1.getLast? =
        some (InstallEvent.builderCall
          (BuilderOp.copy_dir "share/doc" ["root", "rustc", "share", "doc"]))
    ∧ InstallEvent.finish ∉ (install pkgRustcCopy envRustcFail "rustc" none).1
    ∧ (BuilderOp.copy_dir "share/doc" ["root", "rustc", "share", "doc"]).src =
        (pkgRustcCopy.path ++ [actualName pkgRustcCopy.components "rustc" none]) ++
          pathComponentsOf
            (BuilderOp.copy_dir "share/doc" ["root", "rustc", "share", "doc"]).relpath := by
  have h2 := (C5_builder_contract pkgRustcCopy envRustcFail "rustc" none).2
    (BuilderOp.copy_dir "share/doc" ["root", "rustc", "share", "doc"]) "disk full"
    (by decide) (by decide)
  have h1 := (C5_builder_contract pkgRustcCopy envRustcFail "rustc" none).1
    (BuilderOp.copy_dir "share/doc" ["root", "rustc", "share", "doc"]) (by decide)
  exact ⟨h2.1, h2.2.1, h2.2.2, h1.1⟩
